import Mathlib

/-!
# Verification of the conch-runtime word/parameter/command evaluator

A shallow embedding, in Lean 4, of the core of the `conch-runtime` shell
runtime: the `Fields` data model, parameter evaluation and IFS field
splitting (`src/runtime/eval/parameter.rs`), word evaluation
(`src/runtime/eval/word.rs`), arithmetic evaluation, the parameter
substitutions, the `while`/`until` loop state machine
(`src/spawn/loop_cmd.rs`), and the composite environment
(`conch-runtime/src/env/env_impl.rs`, `conch-runtime/src/env/func.rs`).

Rust machine integers (`isize`, `i32`) are modelled as `Int`; where the
source performs a wrapping cast (`i32 as u32`) we take the remainder by
`2^32` explicitly.  Strings are Lean `String`s; iteration over `&str`
contents is modelled on the underlying character list.  Fallible
evaluation returns an `Except` result paired with the (possibly mutated)
environment, matching the Rust convention of mutating through `&mut E`
even on the error path.
-/

namespace ConchRuntime

/-- Exit status of a command: either a normal exit code or a termination
signal.  From the `ExitStatus` enum (spec §3; the enum itself lives in the
crate root). -/
inductive ExitStatus where
| code (c : Int)
| signal (c : Int)
deriving DecidableEq, Repr

/-- `EXIT_SUCCESS = Code(0)`. -/
def EXIT_SUCCESS : ExitStatus := .code 0

/-- `EXIT_ERROR = Code(1)`. -/
def EXIT_ERROR : ExitStatus := .code 1

/-- Modelled from the spec: `ExitStatus::success()` (the method body is in
the crate root, not under the provided sources).  A status is successful
iff it equals `EXIT_SUCCESS` (§4.7: "if its exit status is success"). -/
def ExitStatus.success : ExitStatus → Bool
| .code 0 => true
| _ => false

/-- `EXIT_SIGNAL_OFFSET = 128` from `runtime/eval/parameter.rs`. -/
def EXIT_SIGNAL_OFFSET : Int := 128

/-- `IFS_DEFAULT = " \t\n"` from `runtime/eval/parameter.rs`. -/
def IFS_DEFAULT : String := " \t\n"

/-- The `Fields` value produced by word evaluation (spec §3), specialised
to `String` elements. -/
inductive Fields where
| Zero
| Single (s : String)
| At (vs : List String)
| Star (vs : List String)
| Split (vs : List String)
deriving DecidableEq, Repr

namespace Fields

/-- Modelled from the spec: conversion `From<Vec<T>> for Fields<T>`
(§4.1: an empty vector becomes `Zero`, one element becomes `Single`,
otherwise `Split`). -/
def ofList : List String → Fields
| [] => .Zero
| [s] => .Single s
| vs => .Split vs

/-- Modelled from the spec: `Fields::into_iter()` flattens a fields value
into its sequence of contained strings (§4.1). -/
def intoIter : Fields → List String
| .Zero => []
| .Single s => [s]
| .At vs => vs
| .Star vs => vs
| .Split vs => vs

/-- Modelled from the spec: `Fields::is_null()` is true iff all contained
strings are empty and the variant is not `Zero` (§4.1). -/
def isNull : Fields → Bool
| .Zero => false
| .Single s => s.isEmpty
| .At vs => vs.all String.isEmpty
| .Star vs => vs.all String.isEmpty
| .Split vs => vs.all String.isEmpty

/-- Modelled from the spec: `Fields::join()` joins the contained fields
with a single space (§3 "Joining", as used by `${p=word}` to build the
assigned scalar). -/
def join (f : Fields) : String := String.intercalate " " f.intoIter

end Fields

/-- Rust `str::parse::<isize>`: an optional leading sign followed by one
or more ASCII digits, nothing else.  (Overflow is not modelled; values are
mathematical integers.) -/
def parseDigits : List Char → Option Nat
| [] => none
| cs => if cs.all Char.isDigit then some (cs.foldl (fun n c => n * 10 + (c.toNat - '0'.toNat)) 0) else none

/-- Rust `str::parse::<isize>` on a string. -/
def parseIsize (s : String) : Option Int :=
match s.data with
| '+' :: rest => (parseDigits rest).map Int.ofNat
| '-' :: rest => (parseDigits rest).map (fun n => -(n : Int))
| l => (parseDigits l).map Int.ofNat

/-- An association-list update: overwrite the first binding of `n`, or
append a fresh binding. -/
def alistSet (l : List (String × String)) (n v : String) : List (String × String) :=
match l with
| [] => [(n, v)]
| (k, w) :: rest => if k = n then (k, v) :: rest else (k, w) :: alistSet rest n v

/-- Association-list lookup. -/
def alistGet (l : List (String × String)) (n : String) : Option String :=
match l with
| [] => none
| (k, w) :: rest => if k = n then some w else alistGet rest n

/-- The environment of the `runtime` module, trimmed to the capabilities
the evaluators under `src/runtime/eval` actually use: shell name,
positional arguments, scalar variables, last exit status and process id
(spec §4.2). -/
structure REnv where
  shellName : String
  args : List String
  vars : List (String × String)
  lastStatus : ExitStatus
  pid : Int
deriving DecidableEq, Repr

namespace REnv

/-- `env.var(name)`. -/
def var (e : REnv) (n : String) : Option String := alistGet e.vars n

/-- `env.set_var(name, value)`. -/
def set_var (e : REnv) (n v : String) : REnv := { e with vars := alistSet e.vars n v }

/-- `env.set_last_status(status)`. -/
def set_last_status (e : REnv) (s : ExitStatus) : REnv := { e with lastStatus := s }

/-- Modelled from the spec: `env.arg(i)` for `i ≥ 1` returns the `i`-th
positional argument (`args[i-1]`) if it exists (§4.5; the `ArgsEnv`
implementation is not under the provided sources). -/
def arg (e : REnv) (i : Nat) : Option String := e.args.get? (i - 1)

end REnv

/-- The wrapping Rust cast `i32 as u32`. -/
def asU32 (c : Int) : Int := c % (4294967296 : Int)

/-! ## IFS field splitting (`split_fields_internal`, runtime/eval/parameter.rs) -/

/-- The delimiter-skipping loop at the head of each iteration of
`split_fields_internal`'s outer loop: whitespace-IFS characters are
skipped, each non-whitespace IFS character emits an empty field, and the
scan stops at the first character that is not an IFS character (the start
of the next real field).  Returns the emitted empty fields together with
the remaining characters (`none` when the word was exhausted while
skipping). -/
def sfFindStart (ifs ws : List Char) : List Char → List String × Option (List Char)
| [] => ([], none)
| c :: rest =>
  if ws.contains c then sfFindStart ifs ws rest
  else if ifs.contains c then
    let (es, r) := sfFindStart ifs ws rest
    ("" :: es, r)
  else ([], some (c :: rest))

/-- The field-scanning loop of `split_fields_internal`: consume characters
until an IFS character (which is consumed and not part of the field) or
the end of the word.  Returns the field characters and the remainder. -/
def sfScanField (ifs : List Char) : List Char → List Char × List Char
| [] => ([], [])
| c :: rest =>
  if ifs.contains c then ([], rest)
  else
    let (f, r) := sfScanField ifs rest
    (c :: f, r)

/-- The trailing loop of `split_fields_internal`: after a field is
emitted, skip any adjacent whitespace-IFS characters. -/
def sfSkipWs (ws : List Char) : List Char → List Char
| [] => []
| c :: rest => if ws.contains c then sfSkipWs ws rest else c :: rest

/-- The outer loop of `split_fields_internal` for one word.  `fuel` bounds
the number of iterations; every iteration consumes at least one character,
so `cs.length + 1` is always enough. -/
def splitWordGo (ifs ws : List Char) : Nat → List Char → List String
| 0, _ => []
| fuel + 1, cs =>
  match sfFindStart ifs ws cs with
  | (es, none) => es
  | (es, some []) => es
  | (es, some (c :: rest)) =>
    let (f, r) := sfScanField ifs rest
    es ++ [String.mk (c :: f)] ++ splitWordGo ifs ws fuel (sfSkipWs ws r)

/-- Split a single word per `split_fields_internal`. -/
def splitWord (ifs ws : List Char) (cs : List Char) : List String :=
  splitWordGo ifs ws (cs.length + 1) cs

/-- `split_fields_internal(words, env)`: split each word on the characters
of `IFS` (default `" \t\n"`; if `IFS` is set but empty nothing is split),
skipping empty input words. -/
def split_fields_internal (words : List String) (env : REnv) : List String :=
  let ifs := (env.var "IFS").getD IFS_DEFAULT
  if ifs.isEmpty then words
  else
    let ws := ifs.data.filter Char.isWhitespace
    words.foldl (fun acc w => if w.isEmpty then acc else acc ++ splitWord ifs.data ws w.data) []

/-- `split_fields(fields, env)` from runtime/eval/parameter.rs: `Zero`
stays `Zero`, a `Single` is split and re-collapsed through the
`Vec → Fields` conversion, and the list variants split their contained
fields in place. -/
def split_fields (f : Fields) (env : REnv) : Fields :=
match f with
| .Zero => .Zero
| .Single s => Fields.ofList (split_fields_internal [s] env)
| .At fs => .At (split_fields_internal fs env)
| .Star fs => .Star (split_fields_internal fs env)
| .Split fs => .Split (split_fields_internal fs env)

/-! ## Parameters (`Parameter::eval`, runtime/eval/parameter.rs) -/

/-- The `Parameter` AST (spec §3). -/
inductive Parameter where
| At
| Star
| Pound
| Dollar
| Dash
| Bang
| Question
| Positional (n : Nat)
| Var (name : String)
deriving DecidableEq, Repr

/-- `Parameter::eval(split_fields_further, env)` from
runtime/eval/parameter.rs: `None` indicates an unset parameter; the result
is field-split iff `split` is true. -/
def Parameter.eval (p : Parameter) (split : Bool) (env : REnv) : Option Fields :=
  let ret : Option Fields :=
    match p with
    | .At => some (if env.args.isEmpty then .Zero else .At env.args)
    | .Star => some (if env.args.isEmpty then .Zero else .Star env.args)
    | .Pound => some (.Single (toString env.args.length))
    | .Dollar => some (.Single (toString env.pid))
    | .Dash => none
    | .Bang => none
    | .Question => some (.Single (toString (match env.lastStatus with
        | .code c => asU32 c
        | .signal c => asU32 (asU32 c + EXIT_SIGNAL_OFFSET))))
    | .Positional 0 => some (.Single env.shellName)
    | .Positional n => (env.arg n).map .Single
    | .Var v => (env.var v).map .Single
  ret.map (fun f => if split then split_fields f env else f)

/-! ## Word evaluation (runtime/eval/word.rs)

The embedded word language covers the `SimpleWord` variants whose
evaluation is local to word.rs (`Literal`, `Escaped`, the special
single-character words, `Tilde` and `Param`); the `Subst` variant
delegates to the substitution evaluator, which is embedded separately
below (`assignEval`).  No embedded variant mutates the environment or
fails, so evaluation is a pure total function here, while the source
threads `&mut E` and a `Result` for the sake of the `Subst` arm. -/

/-- `TildeExpansion` (runtime/eval mod). -/
inductive TildeExpansion where
| None
| First
| All
deriving DecidableEq, Repr

/-- `WordEvalConfig` (runtime/eval mod). -/
structure WordEvalConfig where
  tilde_expansion : TildeExpansion
  split_fields_further : Bool
deriving DecidableEq, Repr

/-- `SimpleWord` AST (spec §6), without the `Subst` variant. -/
inductive SimpleWord where
| Literal (s : String)
| Escaped (s : String)
| Star
| Question
| SquareOpen
| SquareClose
| Colon
| Tilde
| Param (p : Parameter)
deriving DecidableEq, Repr

/-- `Word` AST (spec §6). -/
inductive Word where
| Simple (w : SimpleWord)
| SingleQuoted (s : String)
| DoubleQuoted (v : List SimpleWord)
deriving DecidableEq, Repr

/-- `ComplexWord` AST (spec §6). -/
inductive ComplexWord where
| Single (w : Word)
| Concat (v : List Word)
deriving DecidableEq, Repr

/-- Modelled from the spec: `Fields::join_with_ifs(env)` joins a list of
fields with the first character of `IFS` (a space when `IFS` is unset,
nothing when `IFS` is set but empty) — §4.4 on `$*` inside double
quotes. -/
def joinWithIfs (env : REnv) (vs : List String) : String :=
  let sep := match env.var "IFS" with
    | none => " "
    | some ifs => match ifs.data with
      | [] => ""
      | c :: _ => String.mk [c]
  String.intercalate sep vs

/-- `SimpleWord::eval_with_config` (word.rs lines 24–52). -/
def SimpleWord.eval_with_config (w : SimpleWord) (env : REnv) (cfg : WordEvalConfig) : Fields :=
match w with
| .Literal s => .Single s
| .Escaped s => .Single s
| .Star => .Single "*"
| .Question => .Single "?"
| .SquareOpen => .Single "["
| .SquareClose => .Single "]"
| .Colon => .Single ":"
| .Tilde =>
  match cfg.tilde_expansion with
  | .None => .Single "~"
  | .All => (env.var "HOME").elim .Zero .Single
  | .First => (env.var "HOME").elim .Zero .Single
| .Param p => (p.eval cfg.split_fields_further env).getD .Zero

/-- One step of the `DoubleQuoted` accumulation loop (word.rs lines
87–122): `fields` are the completed fields so far and `cur` the optional
in-progress field; the `Fields` produced by the inner evaluation of the
next part is folded in.  The `At` arm reproduces the source exactly: the
first argument is appended to the current field, which is then completed;
middle arguments become their own fields; the final argument begins the
new current field. -/
def dqStep (env : REnv) (acc : List String × Option String) (f : Fields) : List String × Option String :=
  let (fields, cur) := acc
  match f with
  | .Zero => (fields, cur)
  | .Single s => (fields, some ((cur.getD "") ++ s))
  | .Split vs => (fields, some ((cur.getD "") ++ joinWithIfs env vs))
  | .Star vs => (fields, some ((cur.getD "") ++ joinWithIfs env vs))
  | .At vs =>
    match vs with
    | [] => (fields, cur)
    | first :: rest =>
      let fields1 := fields ++ [(cur.getD "") ++ first]
      match rest.getLast? with
      | none => (fields1, none)
      | some lastArg => (fields1 ++ rest.dropLast, some lastArg)

/-- `Word::eval_with_config` (word.rs lines 63–130).  Inner double-quote
parts are evaluated with `tilde_expansion = None` and
`split_fields_further = false`. -/
def Word.eval_with_config (w : Word) (env : REnv) (cfg : WordEvalConfig) : Fields :=
match w with
| .Simple s => s.eval_with_config env cfg
| .SingleQuoted s => .Single s
| .DoubleQuoted v =>
  let innerCfg : WordEvalConfig := { tilde_expansion := .None, split_fields_further := false }
  let (fields, cur) := v.foldl (fun acc part => dqStep env acc (part.eval_with_config env innerCfg)) ([], none)
  Fields.ofList (fields ++ cur.toList)

/-- One step of the `Concat` joining loop (word.rs lines 150–164): the
last accumulated field is merged with the first field of the next part
when both exist; remaining fields of the next part are appended intact. -/
def concatStep (fields : List String) (next : List String) : List String :=
match fields.getLast?, next with
| some lastF, n :: rest => fields.dropLast ++ ((lastF ++ n) :: rest)
| some _, [] => fields
| none, n :: rest => n :: rest
| none, [] => fields

/-- `ComplexWord::eval_with_config` (word.rs lines 138–171).  Note that
the `Concat` arm builds a single inner config with
`tilde_expansion = None` (and the caller's `split_fields_further`) and
uses it for every part, the first included. -/
def ComplexWord.eval_with_config (w : ComplexWord) (env : REnv) (cfg : WordEvalConfig) : Fields :=
match w with
| .Single w => w.eval_with_config env cfg
| .Concat v =>
  let innerCfg : WordEvalConfig :=
    { tilde_expansion := .None, split_fields_further := cfg.split_fields_further }
  Fields.ofList (v.foldl (fun fields w => concatStep fields (w.eval_with_config env innerCfg).intoIter) [])

/-! ## Parameter substitution: the `Assign` form
(`ParameterSubstitution::eval_inner`, runtime/eval/parameter.rs lines
182–207) -/

/-- The expansion errors of spec §7 (`ExpansionError` in error.rs). -/
inductive ExpansionError where
| DivideByZero
| NegativeExponent
| BadAssig (p : Parameter)
| EmptyParameter (p : Parameter) (msg : String)
deriving DecidableEq, Repr

/-- Is the parameter a `Var`?  (the `Assign` arm treats every other
variant as a bad assignment). -/
def Parameter.isVar : Parameter → Bool
| .Var _ => true
| _ => false

/-- The final normalisation of `eval_inner` (runtime/eval/parameter.rs
lines 296–299): an empty `Single` becomes `Zero`. -/
def normalizeFields : Fields → Fields
| .Single s => if s.isEmpty then .Zero else .Single s
| f => f

/-- The `Assign(strict, p, assig)` arm of
`ParameterSubstitution::eval_inner`, with the generic word argument
abstracted (the source is generic over `W: WordEval<E>`) as an optional
evaluation function returning a result and the mutated environment.  The
`check_param_subst!` macro is inlined at the top: a present, non-null
parameter is returned immediately; a null, non-strict one yields `Zero`;
otherwise the assignment logic runs. -/
def assignEval (strict : Bool) (p : Parameter)
    (assig : Option (REnv → Except ExpansionError Fields × REnv))
    (env : REnv) : Except ExpansionError Fields × REnv :=
  let afterCheck : REnv → Except ExpansionError Fields × REnv := fun env =>
    match p with
    | .Var name =>
      let (res, env1) := match assig with
        | some w => w env
        | none => (.ok .Zero, env)
      match res with
      | .error e => (.error e, env1)
      | .ok val =>
        let env2 := env1.set_var name val.join
        (.ok (normalizeFields val), env2)
    | _ => (.error (.BadAssig p), env.set_last_status EXIT_ERROR)
  match p.eval false env with
  | some fields =>
    if !fields.isNull then (.ok fields, env)
    else if !strict then (.ok .Zero, env)
    else afterCheck env
  | none => afterCheck env

/-! ## Arithmetic (`Arithmetic::eval`, runtime/eval/parameter.rs lines
451–575)

Values are mathematical integers standing for `isize`.  Bitwise
operations use the two's-complement operations on `Int`
(`Int.shiftRight` is an arithmetic shift); `<<` is multiplication by a
power of two with the (non-negative) shift amount taken via `toNat`. -/

/-- The `Arithmetic` AST (spec §4.5), with `Var` as `AVar` to avoid
clashing with `Parameter.Var`. -/
inductive Arithmetic where
| Literal (n : Int)
| AVar (v : String)
| PostIncr (v : String)
| PostDecr (v : String)
| PreIncr (v : String)
| PreDecr (v : String)
| UnaryPlus (e : Arithmetic)
| UnaryMinus (e : Arithmetic)
| BitwiseNot (e : Arithmetic)
| LogicalNot (e : Arithmetic)
| Less (l r : Arithmetic)
| LessEq (l r : Arithmetic)
| Great (l r : Arithmetic)
| GreatEq (l r : Arithmetic)
| Eq (l r : Arithmetic)
| NotEq (l r : Arithmetic)
| Pow (l r : Arithmetic)
| Div (l r : Arithmetic)
| Modulo (l r : Arithmetic)
| Mult (l r : Arithmetic)
| Add (l r : Arithmetic)
| Sub (l r : Arithmetic)
| ShiftLeft (l r : Arithmetic)
| ShiftRight (l r : Arithmetic)
| BitwiseAnd (l r : Arithmetic)
| BitwiseXor (l r : Arithmetic)
| BitwiseOr (l r : Arithmetic)
| LogicalAnd (l r : Arithmetic)
| LogicalOr (l r : Arithmetic)
| Ternary (guard thn els : Arithmetic)
| Assign (v : String) (e : Arithmetic)
deriving DecidableEq, Repr

/-- The `get_var` closure of `Arithmetic::eval`: read the variable, parse
it as an integer, defaulting to 0. -/
def arithGetVar (env : REnv) (v : String) : Int :=
  ((env.var v).bind parseIsize).getD 0

/-- `Arithmetic::eval(env)`.  Returns the result (or the expansion error)
together with the environment, which is mutated by the increment,
decrement and assignment forms and by the error paths
(`set_last_status(EXIT_ERROR)` before `DivideByZero` /
`NegativeExponent`). -/
def Arithmetic.eval : Arithmetic → REnv → Except ExpansionError Int × REnv
| .Literal n, env => (.ok n, env)
| .AVar v, env => (.ok (arithGetVar env v), env)
| .PostIncr v, env =>
  let value := arithGetVar env v
  (.ok value, env.set_var v (toString (value + 1)))
| .PostDecr v, env =>
  let value := arithGetVar env v
  (.ok value, env.set_var v (toString (value - 1)))
| .PreIncr v, env =>
  let value := arithGetVar env v + 1
  (.ok value, env.set_var v (toString value))
| .PreDecr v, env =>
  let value := arithGetVar env v - 1
  (.ok value, env.set_var v (toString value))
| .UnaryPlus e, env =>
  match e.eval env with
  | (.ok v, env1) => (.ok |v|, env1)
  | (.error er, env1) => (.error er, env1)
| .UnaryMinus e, env =>
  match e.eval env with
  | (.ok v, env1) => (.ok (-v), env1)
  | (.error er, env1) => (.error er, env1)
| .BitwiseNot e, env =>
  match e.eval env with
  | (.ok v, env1) => (.ok (Int.xor v (-1)), env1)
  | (.error er, env1) => (.error er, env1)
| .LogicalNot e, env =>
  match e.eval env with
  | (.ok v, env1) => (.ok (if v = 0 then 1 else 0), env1)
  | (.error er, env1) => (.error er, env1)
| .Less l r, env =>
  match l.eval env with
  | (.error er, env1) => (.error er, env1)
  | (.ok lv, env1) =>
    match r.eval env1 with
    | (.ok rv, env2) => (.ok (if lv < rv then 1 else 0), env2)
    | (.error er, env2) => (.error er, env2)
| .LessEq l r, env =>
  match l.eval env with
  | (.error er, env1) => (.error er, env1)
  | (.ok lv, env1) =>
    match r.eval env1 with
    | (.ok rv, env2) => (.ok (if lv ≤ rv then 1 else 0), env2)
    | (.error er, env2) => (.error er, env2)
| .Great l r, env =>
  match l.eval env with
  | (.error er, env1) => (.error er, env1)
  | (.ok lv, env1) =>
    match r.eval env1 with
    | (.ok rv, env2) => (.ok (if rv < lv then 1 else 0), env2)
    | (.error er, env2) => (.error er, env2)
| .GreatEq l r, env =>
  match l.eval env with
  | (.error er, env1) => (.error er, env1)
  | (.ok lv, env1) =>
    match r.eval env1 with
    | (.ok rv, env2) => (.ok (if rv ≤ lv then 1 else 0), env2)
    | (.error er, env2) => (.error er, env2)
| .Eq l r, env =>
  match l.eval env with
  | (.error er, env1) => (.error er, env1)
  | (.ok lv, env1) =>
    match r.eval env1 with
    | (.ok rv, env2) => (.ok (if lv = rv then 1 else 0), env2)
    | (.error er, env2) => (.error er, env2)
| .NotEq l r, env =>
  match l.eval env with
  | (.error er, env1) => (.error er, env1)
  | (.ok lv, env1) =>
    match r.eval env1 with
    | (.ok rv, env2) => (.ok (if lv ≠ rv then 1 else 0), env2)
    | (.error er, env2) => (.error er, env2)
| .Pow l r, env =>
  match r.eval env with
  | (.error er, env1) => (.error er, env1)
  | (.ok rv, env1) =>
    if rv < 0 then (.error .NegativeExponent, env1.set_last_status EXIT_ERROR)
    else
      match l.eval env1 with
      | (.ok lv, env2) => (.ok (lv ^ rv.toNat), env2)
      | (.error er, env2) => (.error er, env2)
| .Div l r, env =>
  match r.eval env with
  | (.error er, env1) => (.error er, env1)
  | (.ok rv, env1) =>
    if rv = 0 then (.error .DivideByZero, env1.set_last_status EXIT_ERROR)
    else
      match l.eval env1 with
      | (.ok lv, env2) => (.ok (Int.tdiv lv rv), env2)
      | (.error er, env2) => (.error er, env2)
| .Modulo l r, env =>
  match r.eval env with
  | (.error er, env1) => (.error er, env1)
  | (.ok rv, env1) =>
    if rv = 0 then (.error .DivideByZero, env1.set_last_status EXIT_ERROR)
    else
      match l.eval env1 with
      | (.ok lv, env2) => (.ok (Int.tmod lv rv), env2)
      | (.error er, env2) => (.error er, env2)
| .Mult l r, env =>
  match l.eval env with
  | (.error er, env1) => (.error er, env1)
  | (.ok lv, env1) =>
    match r.eval env1 with
    | (.ok rv, env2) => (.ok (lv * rv), env2)
    | (.error er, env2) => (.error er, env2)
| .Add l r, env =>
  match l.eval env with
  | (.error er, env1) => (.error er, env1)
  | (.ok lv, env1) =>
    match r.eval env1 with
    | (.ok rv, env2) => (.ok (lv + rv), env2)
    | (.error er, env2) => (.error er, env2)
| .Sub l r, env =>
  match l.eval env with
  | (.error er, env1) => (.error er, env1)
  | (.ok lv, env1) =>
    match r.eval env1 with
    | (.ok rv, env2) => (.ok (lv - rv), env2)
    | (.error er, env2) => (.error er, env2)
| .ShiftLeft l r, env =>
  match l.eval env with
  | (.error er, env1) => (.error er, env1)
  | (.ok lv, env1) =>
    match r.eval env1 with
    | (.ok rv, env2) => (.ok (lv * 2 ^ rv.toNat), env2)
    | (.error er, env2) => (.error er, env2)
| .ShiftRight l r, env =>
  match l.eval env with
  | (.error er, env1) => (.error er, env1)
  | (.ok lv, env1) =>
    match r.eval env1 with
    | (.ok rv, env2) => (.ok (Int.shiftRight lv rv.toNat), env2)
    | (.error er, env2) => (.error er, env2)
| .BitwiseAnd l r, env =>
  match l.eval env with
  | (.error er, env1) => (.error er, env1)
  | (.ok lv, env1) =>
    match r.eval env1 with
    | (.ok rv, env2) => (.ok (Int.land lv rv), env2)
    | (.error er, env2) => (.error er, env2)
| .BitwiseXor l r, env =>
  match l.eval env with
  | (.error er, env1) => (.error er, env1)
  | (.ok lv, env1) =>
    match r.eval env1 with
    | (.ok rv, env2) => (.ok (Int.xor lv rv), env2)
    | (.error er, env2) => (.error er, env2)
| .BitwiseOr l r, env =>
  match l.eval env with
  | (.error er, env1) => (.error er, env1)
  | (.ok lv, env1) =>
    match r.eval env1 with
    | (.ok rv, env2) => (.ok (Int.lor lv rv), env2)
    | (.error er, env2) => (.error er, env2)
| .LogicalAnd l r, env =>
  match l.eval env with
  | (.error er, env1) => (.error er, env1)
  | (.ok lv, env1) =>
    if lv ≠ 0 then
      match r.eval env1 with
      | (.ok rv, env2) => (.ok (if rv ≠ 0 then 1 else 0), env2)
      | (.error er, env2) => (.error er, env2)
    else (.ok 0, env1)
| .LogicalOr l r, env =>
  match l.eval env with
  | (.error er, env1) => (.error er, env1)
  | (.ok lv, env1) =>
    if lv = 0 then
      match r.eval env1 with
      | (.ok rv, env2) => (.ok (if rv ≠ 0 then 1 else 0), env2)
      | (.error er, env2) => (.error er, env2)
    else (.ok 1, env1)
| .Ternary guard thn els, env =>
  match guard.eval env with
  | (.error er, env1) => (.error er, env1)
  | (.ok gv, env1) => if gv ≠ 0 then thn.eval env1 else els.eval env1
| .Assign v e, env =>
  match e.eval env with
  | (.error er, env1) => (.error er, env1)
  | (.ok value, env1) => (.ok value, (env1.set_var v (toString value)))

/-! ## Pattern trims: `RemoveSmallestPrefix`
(runtime/eval/parameter.rs lines 262–275)

The glob matcher is an external collaborator (spec §1, §6), so it is
abstracted as an arbitrary predicate on the candidate prefix; strings are
modelled by their character lists. -/

/-- The trim closure of the `RemoveSmallestPrefix` arm: try every proper
prefix of `s` in increasing length order (`for idx in 0..s.len()`),
returning the remainder at the first match; then check the entire string
(returning the empty string on a match); otherwise return `s`
unchanged. -/
def removeSmallestPrefixFn (matcher : List Char → Bool) (s : List Char) : List Char :=
  match (List.range s.length).find? (fun idx => matcher (s.take idx)) with
  | some idx => s.drop idx
  | none => if matcher s then [] else s

/-! ## The `while`/`until` loop (`Loop::poll`, spawn/loop_cmd.rs)

One complete drive of the `Loop` future is modelled as a recursive
function over an environment type that exposes the `LastStatusEnvironment`
capability (an abstract payload `σ` stands for the rest of the
environment).  Guard and body are lists of commands; a command is an
arbitrary state transformer returning its exit status, matching how
statuses flow through futures in the source (error paths, which the
claims do not touch, are not modelled).  `fuel` bounds the number of
iterations, since a shell loop need not terminate. -/

/-- An environment with a last-status slot and an abstract payload. -/
structure LoopEnv (σ : Type) where
  payload : σ
  lastStatus : ExitStatus

/-- `env.set_last_status(status)` on a `LoopEnv`. -/
def LoopEnv.setLast {σ : Type} (e : LoopEnv σ) (s : ExitStatus) : LoopEnv σ :=
  { e with lastStatus := s }

/-- A command: a state transformer producing an exit status. -/
def LoopCmd (σ : Type) := LoopEnv σ → ExitStatus × LoopEnv σ

/-- Modelled from the spec: `VecSequence` (its source is not under the
provided sources) runs a list of commands in order and resolves to the
final command's status, or `EXIT_SUCCESS` for an empty list (§4.7
sequencing; statuses flow through the returned value, not through
`set_last_status`, as witnessed by the explicit `set_last_status` calls in
`Loop::poll`). -/
def runSeq {σ : Type} : List (LoopCmd σ) → LoopEnv σ → ExitStatus × LoopEnv σ
| [], e => (EXIT_SUCCESS, e)
| [c], e => c e
| c :: c2 :: rest, e => runSeq (c2 :: rest) (c e).2

/-- The `Guard → GuardLast → Body → BodyLast` cycle of `Loop::poll`
(spawn/loop_cmd.rs lines 112–163), entered in state `Guard`:

* run the guard; `should_continue = status.success() ^ invert`;
* if not continuing: when the body has never run, `set_last_status(EXIT_SUCCESS)`;
  resolve to `env.last_status()`;
* otherwise `set_last_status(guard status)`, run the body, mark
  `has_run_body`, `set_last_status(body status)` and repeat.

`none` means the fuel ran out before the loop resolved. -/
def loopIter {σ : Type} (invert : Bool) (guard body : List (LoopCmd σ)) :
    Nat → Bool → LoopEnv σ → Option (ExitStatus × LoopEnv σ)
| 0, _, _ => none
| fuel + 1, hasRunBody, e =>
  let (status, e1) := runSeq guard e
  let shouldContinue := xor status.success invert
  if shouldContinue then
    let e2 := e1.setLast status
    let (bstatus, e3) := runSeq body e2
    loopIter invert guard body fuel true (e3.setLast bstatus)
  else
    let e2 := if hasRunBody then e1 else e1.setLast EXIT_SUCCESS
    some (e2.lastStatus, e2)

/-- `Loop::poll` (spawn/loop_cmd.rs lines 103–164): an empty guard and
body resolve immediately to `EXIT_SUCCESS`; otherwise the guard/body
cycle is entered with `has_run_body = false`. -/
def loopCmd {σ : Type} (fuel : Nat) (invert : Bool) (guard body : List (LoopCmd σ))
    (e : LoopEnv σ) : Option (ExitStatus × LoopEnv σ) :=
  if guard.isEmpty && body.isEmpty then some (EXIT_SUCCESS, e)
  else loopIter invert guard body fuel false e

/-! ## The composite environment
(`conch-runtime/src/env/env_impl.rs`, `conch-runtime/src/env/func.rs`) -/

/-- `FnFrameEnv` (env/func.rs lines 79–111): a counter of in-flight
function frames. -/
structure FnFrameEnv where
  num_frames : Nat
deriving DecidableEq, Repr

namespace FnFrameEnv

/-- `FnFrameEnv::new()`. -/
def new : FnFrameEnv := { num_frames := 0 }

/-- `push_fn_frame` (a checked increment; counter overflow of `usize` is
not modelled since counters are `Nat`). -/
def push_fn_frame (e : FnFrameEnv) : FnFrameEnv := { num_frames := e.num_frames + 1 }

/-- `pop_fn_frame`: saturating decrement. -/
def pop_fn_frame (e : FnFrameEnv) : FnFrameEnv := { num_frames := e.num_frames - 1 }

/-- `is_fn_running`: `num_frames > 0`. -/
def is_fn_running (e : FnFrameEnv) : Bool := decide (0 < e.num_frames)

/-- `SubEnvironment for FnFrameEnv` (env/func.rs lines 113–117): the
sub-environment is a plain copy, `*self`. -/
def sub_env (e : FnFrameEnv) : FnFrameEnv := e

end FnFrameEnv

/-- A variable environment entry: value and exported flag. -/
structure VarEntry where
  value : String
  exported : Bool
deriving DecidableEq, Repr

/-- Variable store of `VarEnv` (its source is not under the provided
sources; modelled from spec §4.2): an association list of entries. -/
def VarStore := List (String × VarEntry)

namespace VarStore

/-- Lookup of the full entry. -/
def entry : VarStore → String → Option VarEntry
| [], _ => none
| (k, en) :: rest, n => if k = n then some en else entry rest n

/-- Modelled from the spec: `var(name)` returns the scalar value of a
binding (§4.2). -/
def var (s : VarStore) (n : String) : Option String := (s.entry n).map VarEntry.value

/-- Modelled from the spec: `set_exported_var(name, value, exported)`
writes the value and the exported flag (§4.2). -/
def set_exported_var : VarStore → String → String → Bool → VarStore
| [], n, v, ex => [(n, ⟨v, ex⟩)]
| (k, en) :: rest, n, v, ex =>
  if k = n then (k, ⟨v, ex⟩) :: rest else (k, en) :: set_exported_var rest n v ex

/-- Modelled from the spec: `set_var(name, value)` writes the value,
keeping the exported flag of an existing binding (§4.2). -/
def set_var : VarStore → String → String → VarStore
| [], n, v => [(n, ⟨v, false⟩)]
| (k, en) :: rest, n, v =>
  if k = n then (k, ⟨v, en.exported⟩) :: rest else (k, en) :: set_var rest n v

end VarStore

/-- The `Env` of env_impl.rs, trimmed to the components whose behaviour
the construction and sub-environment claims concern: the interactive
flag, the variable store, the function-frame counter, the last status and
the working directory.  (The remaining components — arguments, file
descriptors, functions, executor, builtins — are delegated wholesale to
sub-components whose `sub_env` is a clone and which `with_config` moves
unchanged.) -/
structure CEnv where
  interactive : Bool
  var_env : VarStore
  fn_frame_env : FnFrameEnv
  lastStatus : ExitStatus
  cwd : String

namespace CEnv

/-- The configuration subset consumed by `with_config`. -/
structure Config where
  interactive : Bool
  var_env : VarStore
  lastStatus : ExitStatus
  cwd : String

/-- `Env::with_config(cfg)` (env_impl.rs lines 308–347): assemble the
environment with a fresh `FnFrameEnv`, then seed `SHLVL` (existing value
parsed as an integer plus one, defaulting to 1, exported), `PWD` and
`OLDPWD` (the current directory, exported), and finally
`set_var("IFS", IFS_DEFAULT)`. -/
def with_config (cfg : Config) : CEnv :=
  let env : CEnv :=
    { interactive := cfg.interactive
      var_env := cfg.var_env
      fn_frame_env := FnFrameEnv.new
      lastStatus := cfg.lastStatus
      cwd := cfg.cwd }
  let level : Int := (((env.var_env.var "SHLVL").bind (fun lvl => (parseIsize lvl).map (· + 1)))).getD 1
  let vars1 := env.var_env.set_exported_var "SHLVL" (toString level) true
  let vars2 := vars1.set_exported_var "PWD" env.cwd true
  let vars3 := vars2.set_exported_var "OLDPWD" env.cwd true
  { env with var_env := vars3.set_var "IFS" IFS_DEFAULT }

/-- `SubEnvironment for Env` (env_impl.rs lines 442–455): every component
is taken through its own `sub_env`; for the embedded components the
variable store, last status and working directory are clones and the
function-frame counter is `FnFrameEnv::sub_env`, i.e. a copy. -/
def sub_env (e : CEnv) : CEnv :=
  { interactive := e.interactive
    var_env := e.var_env
    fn_frame_env := e.fn_frame_env.sub_env
    lastStatus := e.lastStatus
    cwd := e.cwd }

/-- `push_fn_frame` on the composite environment (env_impl.rs lines
628–630). -/
def push_fn_frame (e : CEnv) : CEnv := { e with fn_frame_env := e.fn_frame_env.push_fn_frame }

/-- `is_fn_running` on the composite environment (env_impl.rs lines
636–638). -/
def is_fn_running (e : CEnv) : Bool := e.fn_frame_env.is_fn_running

/-- `var(name)` on the composite environment (delegates to the variable
store). -/
def var (e : CEnv) (n : String) : Option String := e.var_env.var n

end CEnv

/-! ## Concrete fixtures used by the theorems below -/

/-- An environment with `HOME` set. -/
def envHome : REnv := ⟨"shell", [], [("HOME", "/home/user")], EXIT_SUCCESS, 1⟩

/-- An environment with three positional arguments. -/
def envArgs3 : REnv := ⟨"shell", ["one", "two", "three"], [], EXIT_SUCCESS, 1⟩

/-- An environment with no positional arguments. -/
def envNoArgs : REnv := ⟨"shell", [], [], EXIT_SUCCESS, 1⟩

/-- An environment with `IFS="0 "` and `var="  foo000bar   "`. -/
def envCustomIfs : REnv := ⟨"shell", [], [("IFS", "0 "), ("var", "  foo000bar   ")], EXIT_SUCCESS, 1⟩

/-- An environment in which `v` is set but null. -/
def envNullV : REnv := ⟨"shell", [], [("v", "")], EXIT_SUCCESS, 1⟩

/-- A substitution word evaluating to the single field `"x"` without
touching the environment. -/
def wordX : REnv → Except ExpansionError Fields × REnv := fun env => (.ok (.Single "x"), env)

/-- The word-evaluation config `tilde_expansion = First,
split_fields_further = false` (the config a simple command uses for
assignment words). -/
def cfgFirst : WordEvalConfig := ⟨.First, false⟩

/-- The word-evaluation config `tilde_expansion = All,
split_fields_further = true`. -/
def cfgAllSplit : WordEvalConfig := ⟨.All, true⟩

/-- An environment configuration whose variable store already binds
`IFS` to `"x"`. -/
def cfgIFSx : CEnv.Config := ⟨false, [("IFS", ⟨"x", false⟩)], EXIT_SUCCESS, "/dir"⟩

/-- A constructed environment with one pushed function frame. -/
def envFrame1 : CEnv := (CEnv.with_config cfgIFSx).push_fn_frame

/-- A guard command that always fails, leaving the environment alone. -/
def guardFail : LoopCmd Unit := fun e => (EXIT_ERROR, e)

/-- A guard command that succeeds until the payload flag is set. -/
def guardUntilFlag : LoopCmd Bool := fun e =>
  if e.payload then (EXIT_ERROR, e) else (EXIT_SUCCESS, e)

/-- A body command that exits with code 42 and sets the payload flag. -/
def bodyFlag42 : LoopCmd Bool := fun e => (.code 42, { e with payload := true })

/-- A loop environment over `Unit` with last status 9. -/
def loopEnvU : LoopEnv Unit := ⟨(), .code 9⟩

/-- A loop environment over `Bool` with the flag clear and last status 9. -/
def loopEnvB : LoopEnv Bool := ⟨false, .code 9⟩

/-! ## Shared helper lemmas -/

/-- Setting a variable makes it readable with the new value. -/
theorem VarStore.var_set_var_self (s : VarStore) (n v : String) :
    (s.set_var n v).var n = some v := by
  induction s with
  | nil => simp [VarStore.set_var, VarStore.var, VarStore.entry]
  | cons hd tl ih =>
    obtain ⟨k, en⟩ := hd
    by_cases hk : k = n
    · simp [VarStore.set_var, VarStore.var, VarStore.entry, hk]
    · simpa [VarStore.set_var, VarStore.var, VarStore.entry, hk] using ih

/-! ## Claim theorems -/

/-- C1: the claim states that the very first part of a
`ComplexWord::Concat` is evaluated with the caller's `tilde_expansion`.
The code (word.rs lines 143–147) instead builds a single inner config
with `tilde_expansion = None` and uses it for every part, the first
included: a lone tilde evaluated directly under `tilde_expansion = First`
expands to `$HOME`, but the same word as the only (hence first) part of a
`Concat` stays a literal `"~"`. -/
theorem concat_first_part_tilde_not_expanded :
    ComplexWord.eval_with_config (.Concat [.Simple .Tilde]) envHome cfgFirst = .Single "~"
    ∧ ComplexWord.eval_with_config (.Single (.Simple .Tilde)) envHome cfgFirst
        = .Single "/home/user" := by
  constructor <;> rfl

/-- C2 (counterexample): the claim states that an `IFS` value already
present at construction is preserved; but `Env::with_config`
(env_impl.rs line 345) unconditionally writes the default, so a
pre-existing `IFS="x"` is overwritten. -/
theorem with_config_overwrites_preset_ifs :
    (CEnv.with_config cfgIFSx).var "IFS" = some " \t\n"
    ∧ (CEnv.with_config cfgIFSx).var "IFS" ≠ some "x" := by
  constructor
  · rfl
  · intro h
    simp [CEnv.with_config, cfgIFSx, CEnv.var, VarStore.set_var, VarStore.set_exported_var,
      VarStore.var, VarStore.entry, IFS_DEFAULT] at h

/-- C2 (amended): on construction `IFS` is always set to the default
`" \t\n"`, regardless of whether (or to what) it was previously set. -/
theorem with_config_always_sets_default_ifs (cfg : CEnv.Config) :
    (CEnv.with_config cfg).var "IFS" = some IFS_DEFAULT := by
  unfold CEnv.with_config CEnv.var
  exact VarStore.var_set_var_self _ "IFS" IFS_DEFAULT

/-- C2 (amended, witness): instantiated at the fixture configuration. -/
theorem with_config_always_sets_default_ifs_witness :
    (CEnv.with_config cfgIFSx).var "IFS" = some IFS_DEFAULT :=
  with_config_always_sets_default_ifs cfgIFSx

/-- C3 (counterexample): the claim states that `sub_env()` yields a child
with a zero function-frame counter; but `SubEnvironment for FnFrameEnv`
(func.rs lines 113–117) returns a plain copy, so the child of an
environment with one pushed frame still reports a running function. -/
theorem sub_env_fn_frame_not_reset :
    (envFrame1.sub_env).is_fn_running = true
    ∧ (envFrame1.sub_env).fn_frame_env.num_frames ≠ 0 := by
  constructor
  · rfl
  · intro h
    simp [envFrame1, CEnv.sub_env, CEnv.push_fn_frame, FnFrameEnv.sub_env,
      FnFrameEnv.push_fn_frame] at h

/-- C3 (amended): `sub_env()` copies the function-frame counter
unchanged, so the child's `is_fn_running()` coincides with the
parent's. -/
theorem sub_env_copies_fn_frames (e : CEnv) :
    (e.sub_env).fn_frame_env = e.fn_frame_env
    ∧ (e.sub_env).is_fn_running = e.is_fn_running :=
  ⟨rfl, rfl⟩

/-- C3 (amended, witness): instantiated at the one-frame fixture. -/
theorem sub_env_copies_fn_frames_witness :
    (envFrame1.sub_env).fn_frame_env = envFrame1.fn_frame_env
    ∧ (envFrame1.sub_env).is_fn_running = envFrame1.is_fn_running :=
  sub_env_copies_fn_frames envFrame1

/-- C4: inside double quotes, `"x$@y"` with arguments `one two three`
yields exactly the fields `xone`, `two`, `threey`: the first argument is
concatenated to the accumulated text, middle arguments become their own
fields, the last argument is concatenated with what follows.  With no
arguments, `$@` contributes no field at all: `"x$@y"` collapses to the
single field `xy` and a lone `"$@"` to no field. -/
theorem double_quoted_at_fields :
    Word.eval_with_config (.DoubleQuoted [.Literal "x", .Param .At, .Literal "y"]) envArgs3 cfgAllSplit
      = .Split ["xone", "two", "threey"]
    ∧ Word.eval_with_config (.DoubleQuoted [.Literal "x", .Param .At, .Literal "y"]) envNoArgs cfgAllSplit
      = .Single "xy"
    ∧ Word.eval_with_config (.DoubleQuoted [.Param .At]) envNoArgs cfgAllSplit
      = .Zero := by
  refine ⟨rfl, rfl, rfl⟩

/-- C5: with `IFS="0 "` and `var="  foo000bar   "`, evaluating `$var`
with `split_fields_further = true` yields exactly the four fields `foo`,
`""`, `""`, `bar`: leading whitespace-IFS is skipped, each further
non-whitespace delimiter without intervening content emits an empty
field, and trailing whitespace-IFS emits nothing. -/
theorem param_var_custom_ifs_split :
    Parameter.eval (.Var "var") true envCustomIfs = some (.Split ["foo", "", "", "bar"]) := by
  rfl

/-- C9: for every pattern-matching predicate and every string, the
remove-smallest-prefix trim returns a suffix of the input (the input with
some possibly-empty leading prefix removed); and when no prefix of the
input matches, the input is returned unchanged. -/
theorem remove_smallest_prefix_suffix (matcher : List Char → Bool) (s : List Char) :
    (removeSmallestPrefixFn matcher s) <:+ s
    ∧ ((∀ idx, idx ≤ s.length → matcher (s.take idx) = false) →
        removeSmallestPrefixFn matcher s = s) := by
  constructor
  · unfold removeSmallestPrefixFn
    cases hf : (List.range s.length).find? (fun idx => matcher (s.take idx)) with
    | some idx => exact List.drop_suffix idx s
    | none =>
      by_cases hm : matcher s = true
      · simp only [hm, if_true]
        exact List.nil_suffix
      · rw [Bool.not_eq_true] at hm
        simp only [hm, Bool.false_eq_true, if_false]
        exact List.suffix_refl s
  · intro hno
    unfold removeSmallestPrefixFn
    have hfind : (List.range s.length).find? (fun idx => matcher (s.take idx)) = none := by
      rw [List.find?_eq_none]
      intro idx hidx
      have : idx ≤ s.length := Nat.le_of_lt (List.mem_range.mp hidx)
      simp [hno idx this]
    rw [hfind]
    have : matcher (s.take s.length) = false := hno s.length le_rfl
    rw [List.take_length] at this
    simp [this]

/-- C9 (witness): a predicate matching only `"ab"` never matches a prefix
of `"xyz"`, which is therefore returned unchanged (and is trivially a
suffix of itself). -/
theorem remove_smallest_prefix_suffix_witness :
    (removeSmallestPrefixFn (fun l => decide (l = ['a', 'b'])) ['x', 'y', 'z']) <:+ ['x', 'y', 'z']
    ∧ removeSmallestPrefixFn (fun l => decide (l = ['a', 'b'])) ['x', 'y', 'z'] = ['x', 'y', 'z'] := by
  have h := remove_smallest_prefix_suffix (fun l => decide (l = ['a', 'b'])) ['x', 'y', 'z']
  exact ⟨h.1, h.2 (by decide)⟩

/-- C10: arithmetic unary plus returns the absolute value of its operand,
not the operand itself (runtime/eval/parameter.rs line 489 applies
`.abs()`). -/
theorem unary_plus_is_abs (e : Arithmetic) (env env1 : REnv) (v : Int)
    (h : e.eval env = (.ok v, env1)) :
    Arithmetic.eval (.UnaryPlus e) env = (.ok |v|, env1) := by
  simp only [Arithmetic.eval, h]

/-- C10 (witness): `+(-5)` evaluates to `5`. -/
theorem unary_plus_is_abs_witness :
    Arithmetic.eval (.UnaryPlus (.Literal (-5))) envNoArgs = (.ok 5, envNoArgs) := by
  have h := unary_plus_is_abs (.Literal (-5)) envNoArgs envNoArgs (-5) rfl
  simpa using h

/-- C8: division and modulo first evaluate the right operand; on a zero
divisor they set the last status to `EXIT_ERROR` and fail with
`DivideByZero`; on a nonzero divisor they produce the truncated quotient
(`Int.tdiv`, Rust `/`) and remainder (`Int.tmod`, Rust `%`). -/
theorem arith_div_mod_spec (l r : Arithmetic) (env env1 : REnv) (rv : Int)
    (h : r.eval env = (.ok rv, env1)) :
    (rv = 0 →
      Arithmetic.eval (.Div l r) env = (.error .DivideByZero, env1.set_last_status EXIT_ERROR)
      ∧ Arithmetic.eval (.Modulo l r) env = (.error .DivideByZero, env1.set_last_status EXIT_ERROR)
      ∧ (env1.set_last_status EXIT_ERROR).lastStatus = EXIT_ERROR)
    ∧ (rv ≠ 0 → ∀ (lv : Int) (env2 : REnv), l.eval env1 = (.ok lv, env2) →
      Arithmetic.eval (.Div l r) env = (.ok (Int.tdiv lv rv), env2)
      ∧ Arithmetic.eval (.Modulo l r) env = (.ok (Int.tmod lv rv), env2)) := by
  constructor
  · intro hz
    subst hz
    refine ⟨?_, ?_, rfl⟩ <;> simp [Arithmetic.eval, h]
  · intro hnz lv env2 hl
    constructor <;> simp [Arithmetic.eval, h, hl, hnz]

/-- C8 (witness): `7 / 2 = 3`, `7 % 2 = 1`, and `1 / 0` fails with
`DivideByZero` after setting the last status to `EXIT_ERROR`. -/
theorem arith_div_mod_spec_witness :
    Arithmetic.eval (.Div (.Literal 7) (.Literal 2)) envNoArgs = (.ok 3, envNoArgs)
    ∧ Arithmetic.eval (.Modulo (.Literal 7) (.Literal 2)) envNoArgs = (.ok 1, envNoArgs)
    ∧ Arithmetic.eval (.Div (.Literal 1) (.Literal 0)) envNoArgs
        = (.error .DivideByZero, envNoArgs.set_last_status EXIT_ERROR) := by
  have h2 := (arith_div_mod_spec (.Literal 7) (.Literal 2) envNoArgs envNoArgs 2 rfl).2
    (by decide) 7 envNoArgs rfl
  have h0 := (arith_div_mod_spec (.Literal 1) (.Literal 0) envNoArgs envNoArgs 0 rfl).1 rfl
  have ht : Int.tdiv 7 2 = 3 := by decide
  have hm : Int.tmod 7 2 = 1 := by decide
  refine ⟨?_, ?_, h0.1⟩
  · rw [h2.1, ht]
  · rw [h2.2, hm]

/-- C7 (counterexample): the claim states that a present parameter has
its fields returned unchanged; but for a present-but-null parameter under
a non-strict modifier the `check_param_subst!` logic yields `Zero`, not
the parameter's own `Single ""` (and evaluates no word and reassigns
nothing). -/
theorem assign_present_null_returns_zero :
    Parameter.eval (.Var "v") false envNullV = some (.Single "")
    ∧ assignEval false (.Var "v") (some wordX) envNullV = (.ok .Zero, envNullV)
    ∧ Fields.Zero ≠ Fields.Single ""
    ∧ envNullV.var "v" = some "" := by
  refine ⟨rfl, rfl, by decide, rfl⟩

/-- C7 (amended): for `${p=word}` / `${p:=word}`: a present parameter
with non-null fields has them returned unchanged; a present-but-null
parameter under a non-strict modifier yields `Zero` (no assignment); if
`p` is `Var(name)` and absent (unset, or null under the strict modifier),
the word (or `Zero` when there is none) is evaluated, the variable is set
to the joined result and the (empty-`Single`-normalised) result is
returned; if `p` is any non-`Var` parameter and absent, the last status
is set to `EXIT_ERROR` and evaluation fails with `BadAssig`. -/
theorem assign_eval_spec :
    (∀ (strict : Bool) (p : Parameter)
      (w : Option (REnv → Except ExpansionError Fields × REnv)) (env : REnv) (f : Fields),
      p.eval false env = some f → f.isNull = false →
      assignEval strict p w env = (.ok f, env))
    ∧ (∀ (p : Parameter) (w : Option (REnv → Except ExpansionError Fields × REnv))
      (env : REnv) (f : Fields),
      p.eval false env = some f → f.isNull = true →
      assignEval false p w env = (.ok .Zero, env))
    ∧ (∀ (strict : Bool) (name : String) (wf : REnv → Except ExpansionError Fields × REnv)
      (env env1 : REnv) (f : Fields),
      (Parameter.eval (.Var name) false env = none
        ∨ (strict = true ∧ ∃ f0, Parameter.eval (.Var name) false env = some f0 ∧ f0.isNull = true)) →
      wf env = (.ok f, env1) →
      assignEval strict (.Var name) (some wf) env
        = (.ok (normalizeFields f), env1.set_var name f.join))
    ∧ (∀ (strict : Bool) (name : String) (env : REnv),
      (Parameter.eval (.Var name) false env = none
        ∨ (strict = true ∧ ∃ f0, Parameter.eval (.Var name) false env = some f0 ∧ f0.isNull = true)) →
      assignEval strict (.Var name) none env = (.ok .Zero, env.set_var name ""))
    ∧ (∀ (strict : Bool) (p : Parameter)
      (w : Option (REnv → Except ExpansionError Fields × REnv)) (env : REnv),
      p.isVar = false →
      (p.eval false env = none
        ∨ (strict = true ∧ ∃ f0, p.eval false env = some f0 ∧ f0.isNull = true)) →
      assignEval strict p w env = (.error (.BadAssig p), env.set_last_status EXIT_ERROR)) := by
  refine ⟨?_, ?_, ?_, ?_, ?_⟩
  · intro strict p w env f hp hnull
    simp [assignEval, hp, hnull]
  · intro p w env f hp hnull
    simp [assignEval, hp, hnull]
  · intro strict name wf env env1 f habs hw
    rcases habs with hnone | ⟨hstrict, f0, hsome, hnull⟩
    · simp [assignEval, hnone, hw]
    · subst hstrict
      simp [assignEval, hsome, hnull, hw]
  · intro strict name env habs
    rcases habs with hnone | ⟨hstrict, f0, hsome, hnull⟩
    · simp only [assignEval, hnone, normalizeFields, Fields.join, Fields.intoIter]
      rfl
    · subst hstrict
      simp only [assignEval, hsome, hnull, Bool.not_true, Bool.false_eq_true, if_false,
        normalizeFields, Fields.join, Fields.intoIter]
      rfl
  · intro strict p w env hvar habs
    rcases habs with hnone | ⟨hstrict, f0, hsome, hnull⟩
    · cases p <;> simp_all [assignEval, Parameter.isVar]
    · subst hstrict
      cases p <;> simp_all [assignEval, Parameter.isVar]

/-- C7 (amended, witness): the four behaviours at concrete inputs: a set
variable is returned unchanged; a null one under `=` yields `Zero`; an
unset one is assigned the word's value; `${-=w}` is a bad assignment. -/
theorem assign_eval_spec_witness :
    assignEval true (.Var "v") (some wordX) ⟨"shell", [], [("v", "val")], EXIT_SUCCESS, 1⟩
      = (.ok (.Single "val"), ⟨"shell", [], [("v", "val")], EXIT_SUCCESS, 1⟩)
    ∧ assignEval false (.Var "v") (some wordX) envNullV = (.ok .Zero, envNullV)
    ∧ assignEval false (.Var "u") (some wordX) envNoArgs
      = (.ok (.Single "x"), envNoArgs.set_var "u" "x")
    ∧ assignEval false .Dash (some wordX) envNoArgs
      = (.error (.BadAssig .Dash), envNoArgs.set_last_status EXIT_ERROR) := by
  obtain ⟨h1, h2, h3, _, h5⟩ := assign_eval_spec
  refine ⟨h1 true (.Var "v") (some wordX) _ (.Single "val") rfl rfl, ?_, ?_, ?_⟩
  · exact h2 (.Var "v") (some wordX) envNullV (.Single "") rfl rfl
  · have := h3 false "u" wordX envNoArgs envNoArgs (.Single "x") (Or.inl rfl) rfl
    simpa [normalizeFields, Fields.join, Fields.intoIter] using this
  · exact h5 false .Dash (some wordX) envNoArgs rfl (Or.inl rfl)

/-- Helper for the loop claim: once the body has run at least once
(`has_run_body = true`), and provided the guard sequence leaves the last
status alone (statuses flow through futures, not `set_last_status`), a
resolving loop yields either the last status it was entered with or the
status of some body execution, and in both cases the environment's final
last status equals the loop's result. -/
theorem loopIter_hasRun_result {σ : Type} (invert : Bool) (guard body : List (LoopCmd σ))
    (hg : ∀ t : LoopEnv σ, ((runSeq guard t).2).lastStatus = t.lastStatus) :
    ∀ (fuel : Nat) (e : LoopEnv σ) (st : ExitStatus) (e2 : LoopEnv σ),
      loopIter invert guard body fuel true e = some (st, e2) →
      (st = e.lastStatus ∧ e2.lastStatus = st)
      ∨ ∃ t, st = (runSeq body t).1 ∧ e2.lastStatus = st := by
  intro fuel
  induction fuel with
  | zero =>
    intro e st e2 h
    simp [loopIter] at h
  | succ n ih =>
    intro e st e2 h
    rcases hge : runSeq guard e with ⟨g, e1⟩
    rcases hb : runSeq body (e1.setLast g) with ⟨b, e3⟩
    simp only [loopIter, hge, hb] at h
    by_cases hc : xor g.success invert
    · rw [if_pos hc] at h
      rcases ih _ _ _ h with ⟨hst, hlast⟩ | ⟨t, hst, hlast⟩
      · refine Or.inr ⟨e1.setLast g, ?_, hlast⟩
        rw [hb]
        simpa [LoopEnv.setLast] using hst
      · exact Or.inr ⟨t, hst, hlast⟩
    · rw [if_neg hc] at h
      simp only [if_true, Option.some.injEq, Prod.mk.injEq] at h
      obtain ⟨hst, he2⟩ := h
      have h1 : e1.lastStatus = e.lastStatus := by
        have := hg e
        rwa [hge] at this
      subst he2
      exact Or.inl ⟨by rw [← hst, h1], hst.symm ▸ rfl⟩

/-- C6: the `while`/`until` loop (a) resolves immediately to
`EXIT_SUCCESS` when guard and body are both empty; (b) when the guard
resolves such that `success XOR invert_guard_status` is false before the
body has ever run, sets the last status to `EXIT_SUCCESS` and resolves to
it; (c) continues (runs the body, records the guard's then the body's
status, and loops with `has_run_body = true`) exactly when
`success XOR invert_guard_status` is true; and (d) — provided the guard
commands deliver their status through the returned value rather than
`set_last_status` — any resolution is either the `EXIT_SUCCESS` of a
body-less exit or the status of the last body execution, which is also
the environment's final last status. -/
theorem loop_cmd_spec :
    (∀ (σ : Type) (fuel : Nat) (invert : Bool) (e : LoopEnv σ),
      loopCmd fuel invert [] [] e = some (EXIT_SUCCESS, e))
    ∧ (∀ (σ : Type) (fuel : Nat) (invert : Bool) (guard body : List (LoopCmd σ))
        (e : LoopEnv σ) (g : ExitStatus) (e1 : LoopEnv σ),
      runSeq guard e = (g, e1) → xor g.success invert = false →
      loopIter invert guard body (fuel + 1) false e
        = some (EXIT_SUCCESS, e1.setLast EXIT_SUCCESS))
    ∧ (∀ (σ : Type) (fuel : Nat) (invert hasRun : Bool) (guard body : List (LoopCmd σ))
        (e : LoopEnv σ) (g : ExitStatus) (e1 : LoopEnv σ) (b : ExitStatus) (e3 : LoopEnv σ),
      runSeq guard e = (g, e1) → xor g.success invert = true →
      runSeq body (e1.setLast g) = (b, e3) →
      loopIter invert guard body (fuel + 1) hasRun e
        = loopIter invert guard body fuel true (e3.setLast b))
    ∧ (∀ (σ : Type) (invert : Bool) (guard body : List (LoopCmd σ)),
      (∀ t : LoopEnv σ, ((runSeq guard t).2).lastStatus = t.lastStatus) →
      ∀ (fuel : Nat) (e : LoopEnv σ) (st : ExitStatus) (e2 : LoopEnv σ),
        loopIter invert guard body fuel false e = some (st, e2) →
        (st = EXIT_SUCCESS ∧ e2.lastStatus = EXIT_SUCCESS)
        ∨ ∃ t, st = (runSeq body t).1 ∧ e2.lastStatus = st) := by
  refine ⟨?_, ?_, ?_, ?_⟩
  · intro σ fuel invert e
    simp [loopCmd]
  · intro σ fuel invert guard body e g e1 hge hx
    simp [loopIter, hge, hx, LoopEnv.setLast]
  · intro σ fuel invert hasRun guard body e g e1 b e3 hge hx hb
    simp [loopIter, hge, hx, hb]
  · intro σ invert guard body hg fuel e st e2 h
    cases fuel with
    | zero => simp [loopIter] at h
    | succ n =>
      rcases hge : runSeq guard e with ⟨g, e1⟩
      rcases hb : runSeq body (e1.setLast g) with ⟨b, e3⟩
      simp only [loopIter, hge, hb] at h
      by_cases hc : xor g.success invert
      · rw [if_pos hc] at h
        rcases loopIter_hasRun_result invert guard body hg _ _ _ _ h with ⟨hst, hlast⟩ | ⟨t, hst, hlast⟩
        · refine Or.inr ⟨e1.setLast g, ?_, hlast⟩
          rw [hb]
          simpa [LoopEnv.setLast] using hst
        · exact Or.inr ⟨t, hst, hlast⟩
      · rw [if_neg hc] at h
        simp only [Bool.false_eq_true, if_false, Option.some.injEq, Prod.mk.injEq] at h
        obtain ⟨hst, he2⟩ := h
        subst he2
        exact Or.inl ⟨hst.symm, rfl⟩

/-- C6 (witness): all four conjuncts at concrete inputs: the empty loop;
`while false; do (code 42); done` resolving to `EXIT_SUCCESS`; a `while`
whose guard succeeds until the body's flag is set, continuing into its
body; and the resolution property for that loop (its result `code 42` is
the body's status). -/
theorem loop_cmd_spec_witness :
    loopCmd 3 false ([] : List (LoopCmd Unit)) [] loopEnvU = some (EXIT_SUCCESS, loopEnvU)
    ∧ loopIter false [guardFail] [fun e => (.code 42, e)] 1 false loopEnvU
        = some (EXIT_SUCCESS, loopEnvU.setLast EXIT_SUCCESS)
    ∧ loopIter false [guardUntilFlag] [bodyFlag42] 2 false loopEnvB
        = loopIter false [guardUntilFlag] [bodyFlag42] 1 true
            ((⟨true, EXIT_SUCCESS⟩ : LoopEnv Bool).setLast (.code 42))
    ∧ ((ExitStatus.code 42 = EXIT_SUCCESS ∧ (⟨true, .code 42⟩ : LoopEnv Bool).lastStatus = EXIT_SUCCESS)
        ∨ ∃ t, ExitStatus.code 42 = (runSeq [bodyFlag42] t).1
            ∧ (⟨true, .code 42⟩ : LoopEnv Bool).lastStatus = .code 42) := by
  obtain ⟨h1, h2, h3, h4⟩ := loop_cmd_spec
  refine ⟨h1 Unit 3 false loopEnvU, ?_, ?_, ?_⟩
  · exact h2 Unit 0 false [guardFail] [fun e => (.code 42, e)] loopEnvU EXIT_ERROR loopEnvU rfl rfl
  · exact h3 Bool 1 false false [guardUntilFlag] [bodyFlag42] loopEnvB EXIT_SUCCESS loopEnvB
      (.code 42) ⟨true, EXIT_SUCCESS⟩ rfl rfl rfl
  · exact h4 Bool false [guardUntilFlag] [bodyFlag42]
      (fun t => by rcases t with ⟨p, ls⟩; cases p <;> rfl)
      2 loopEnvB (.code 42) ⟨true, .code 42⟩ rfl

end ConchRuntime
